import Mathlib

/-!
Shallow embedding of the MarketMakingGame server round engine
(src/server/index.js): room data, the per-round call-auction matching
(processRoundBids), the portfolio ledger (applyRiskFreeAndRecord,
finalizeGame), the Sharpe computation (computeSharpeRatio in the source,
computeSharpe here), and the join-room handler.

Numbers: JS numbers are modelled as exact rationals; the Sharpe value,
which needs a square root, lives in the reals.  JS objects (string-keyed,
insertion-ordered) are modelled as association lists with unique keys,
with lookupKey for property read and setKey for property assignment.
Network emits, console logging, timers and the per-position cached
display field pos.sharpe (recomputed from portfolioHistory on every
broadcast and never read back by the engine) are not modelled; neither is
the wall-clock startTime field.
-/

/-- Association-list lookup modelling a JS object property read
(obj[key]). -/
def lookupKey {α : Type} : List (String × α) → String → Option α
  | [], _ => none
  | (k, v) :: rest, k2 => if k = k2 then some v else lookupKey rest k2

/-- Association-list write modelling a JS object property assignment
(obj[key] = v): replaces the binding in place when the key is present,
otherwise appends it, matching JS object insertion order. -/
def setKey {α : Type} : List (String × α) → String → α → List (String × α)
  | [], k2, v2 => [(k2, v2)]
  | (k, v) :: rest, k2, v2 =>
      if k = k2 then (k, v2) :: rest else (k, v) :: setKey rest k2 v2

/-- The two round directions, "sell-call" and "buy-call" in the source. -/
inductive PromptType
  | sellCall
  | buyCall
deriving DecidableEq

/-- A per-player position: { cash, calls, portfolioHistory } in the
source.  The option count is an integer (shorting is allowed). -/
structure Position where
  cash : ℚ
  calls : ℤ
  portfolioHistory : List ℚ
deriving DecidableEq

/-- Room state, from initRoomData in the source.  The roundInterval
timer handle is not modelled (it is only ever cleared). -/
structure RoomData where
  admin : String
  usernames : List (String × String)
  started : Bool
  gameOver : Bool
  positions : List (String × Position)
  bids : List (String × ℚ)
  promptCount : ℕ
  strikePrice : ℚ
  currentPromptType : PromptType
  marketPrice : ℚ
deriving DecidableEq

/-- initRoomData(adminID) from the source. -/
def initRoomData (adminID : String) : RoomData :=
  { admin := adminID
    usernames := []
    started := false
    gameOver := false
    positions := []
    bids := []
    promptCount := 0
    strikePrice := 100
    currentPromptType := .sellCall
    marketPrice := 0 }

/-- The per-round risk-free fraction used by the ledger
(applyRiskFreeAndRecord): 0.05 / 60 in the source. -/
def rfStepLedger : ℚ := 5 / 100 / 60

/-- The per-round risk-free fraction used by the Sharpe computation
(computeSharpeRatio): 0.05 / 60 in the source. -/
def rfStepSharpe : ℚ := 5 / 100 / 60

/-- Step returns of a valuation history: (V_t - V_p) / V_p for each
adjacent pair (V_p, V_t), as built by the loop in computeSharpeRatio. -/
def stepReturns (history : List ℚ) : List ℚ :=
  (history.zip history.tail).map fun p => (p.2 - p.1) / p.1

/-- STDEV_THRESHOLD = 1e-10 in the source. -/
noncomputable def stdevThreshold : ℝ := 1 / 10 ^ 10

/-- computeSharpeRatio(history) from the source: 0 on fewer than two
points; otherwise mean of step returns, variance with divisor
(returns.length - 1 || 1), 0 when the standard deviation is below
STDEV_THRESHOLD (the following stdev === 0 test is dead code kept for
fidelity), else (avgR - rfStep) / stdev. -/
noncomputable def computeSharpe (history : List ℚ) : ℝ :=
  if history.length < 2 then 0
  else
    let returns := stepReturns history
    let avgR : ℚ := returns.sum / (returns.length : ℚ)
    let sqDiffs := returns.map fun r => (r - avgR) ^ 2
    let divisor : ℕ := if returns.length - 1 = 0 then 1 else returns.length - 1
    let variance : ℚ := sqDiffs.sum / (divisor : ℚ)
    let stdev : ℝ := Real.sqrt (variance : ℝ)
    if stdev < stdevThreshold then 0
    else if stdev = 0 then 0
    else ((avgR - rfStepSharpe : ℚ) : ℝ) / stdev

/-- Modelled from the claim wording for comparison with computeSharpe:
0 on fewer than two points; mean of step returns; variance with divisor
max(count - 1, 1); 0 when the standard deviation is below the fixed
epsilon; otherwise (meanReturn - riskFreeStepRate) / stdev with the same
per-round risk-free fraction as the ledger compounding step. -/
noncomputable def sharpeSpecModel (history : List ℚ) : ℝ :=
  if history.length < 2 then 0
  else
    let returns := stepReturns history
    let meanReturn : ℚ := returns.sum / (returns.length : ℚ)
    let variance : ℚ :=
      (returns.map fun r => (r - meanReturn) ^ 2).sum / ((max (returns.length - 1) 1 : ℕ) : ℚ)
    let stdev : ℝ := Real.sqrt (variance : ℝ)
    if stdev < stdevThreshold then 0
    else ((meanReturn - rfStepLedger : ℚ) : ℝ) / stdev

/-- The per-position body of applyRiskFreeAndRecord: cash is compounded
by (1 + rfStep), then cash + calls * marketPrice is appended to the
portfolio history. -/
def valuationStep (marketPrice : ℚ) (pos : Position) : Position :=
  let cash2 := pos.cash * (1 + rfStepLedger)
  { cash := cash2
    calls := pos.calls
    portfolioHistory := pos.portfolioHistory ++ [cash2 + (pos.calls : ℚ) * marketPrice] }

/-- applyRiskFreeAndRecord(room) from the source, applied to every
registered position.  (The source also defensively initialises a missing
portfolioHistory; in the model the history is always a list.) -/
def applyRiskFreeAndRecord (data : RoomData) : RoomData :=
  { data with positions := data.positions.map fun e => (e.1, valuationStep data.marketPrice e.2) }

/-- broadcastPositionsAndSharpe(room) from the source: its state effect
is applyRiskFreeAndRecord; the rest of its body recomputes the cached
display field pos.sharpe and emits the broadcast payload, neither of
which is engine state read anywhere. -/
def broadcastPositionsAndSharpe (data : RoomData) : RoomData :=
  applyRiskFreeAndRecord data

/-- Sort order used for a sell-call round: the JS comparator
(a, b) => b[1] - a[1], i.e. descending by price. -/
def bidDesc (a b : String × ℚ) : Prop := b.2 ≤ a.2

/-- Sort order used for a buy-call round: the JS comparator
(a, b) => a[1] - b[1], i.e. ascending by price. -/
def bidAsc (a b : String × ℚ) : Prop := a.2 ≤ b.2

instance : DecidableRel bidDesc := fun a b => inferInstanceAs (Decidable (b.2 ≤ a.2))

instance : DecidableRel bidAsc := fun a b => inferInstanceAs (Decidable (a.2 ≤ b.2))

instance : IsTotal (String × ℚ) bidDesc := ⟨fun a b => le_total b.2 a.2⟩

instance : IsTrans (String × ℚ) bidDesc := ⟨fun _ _ _ h1 h2 => le_trans h2 h1⟩

instance : IsTotal (String × ℚ) bidAsc := ⟨fun a b => le_total a.2 b.2⟩

instance : IsTrans (String × ℚ) bidAsc := ⟨fun _ _ _ h1 h2 => le_trans h1 h2⟩

/-- The sort step of processRoundBids: descending by price on a
sell-call round, ascending on a buy-call round. -/
def sortBids (promptType : PromptType) (bids : List (String × ℚ)) : List (String × ℚ) :=
  match promptType with
  | .sellCall => bids.insertionSort bidDesc
  | .buyCall => bids.insertionSort bidAsc

/-- medianIndex = Math.ceil(sorted.length / 2) - 1 in the source. -/
def medianIndex (n : ℕ) : ℕ := (n + 1) / 2 - 1

/-- The clearing (median) price of the round: the price at the median
index of the sorted bid list. -/
def clearingPrice (data : RoomData) : ℚ :=
  let sorted := sortBids data.currentPromptType data.bids
  (sorted.getD (medianIndex sorted.length) ("", 0)).2

/-- Whether a bid executes: at or above the clearing price on a
sell-call round, at or below on a buy-call round. -/
def bidExecutes (promptType : PromptType) (bidPx clearing : ℚ) : Bool :=
  match promptType with
  | .sellCall => clearing ≤ bidPx
  | .buyCall => bidPx ≤ clearing

/-- The position mutation of an executed trade, settled at the bidder
price: sell-call rounds have the player buying one call (cash down by
the bid, calls up one); buy-call rounds have the player selling one
call (cash up by the bid, calls down one). -/
def applyTrade (promptType : PromptType) (bidPx : ℚ) (pos : Position) : Position :=
  match promptType with
  | .sellCall => { pos with cash := pos.cash - bidPx, calls := pos.calls + 1 }
  | .buyCall => { pos with cash := pos.cash + bidPx, calls := pos.calls - 1 }

/-- The position the source creates on demand for an executing bidder
with no registered position: { cash: 0, calls: 0, portfolioHistory: [] }. -/
def emptyPos : Position := { cash := 0, calls := 0, portfolioHistory := [] }

/-- One iteration of the execution loop in processRoundBids: when the
bid meets the threshold, the bidder position (created on demand if
absent) is mutated by the trade. -/
def tradeOne (promptType : PromptType) (clearing : ℚ)
    (positions : List (String × Position)) (bid : String × ℚ) : List (String × Position) :=
  if bidExecutes promptType bid.2 clearing then
    setKey positions bid.1
      (applyTrade promptType bid.2 ((lookupKey positions bid.1).getD emptyPos))
  else positions

/-- The execution loop of processRoundBids over the sorted bid list. -/
def executeTrades (promptType : PromptType) (clearing : ℚ)
    (sorted : List (String × ℚ)) (positions : List (String × Position)) :
    List (String × Position) :=
  sorted.foldl (tradeOne promptType clearing) positions

/-- processRoundBids(room) from the source: with no bids, only the
valuation/broadcast step runs; otherwise the bids are sorted by the
round direction, the median price is taken as clearing price, threshold
trades are executed at the bidder price, marketPrice is set to the
clearing price, the valuation/broadcast step runs, and the bid map is
cleared. -/
def processRoundBids (data : RoomData) : RoomData :=
  if data.bids = [] then broadcastPositionsAndSharpe data
  else
    let medianPrice := clearingPrice data
    let data2 := { data with
      positions := executeTrades data.currentPromptType medianPrice
        (sortBids data.currentPromptType data.bids) data.positions
      marketPrice := medianPrice }
    { broadcastPositionsAndSharpe data2 with bids := [] }

/-- The per-position body of the startGame initial-valuation loop: the
initial mark cash + calls * marketPrice is appended to the history. -/
def startValuation (marketPrice : ℚ) (pos : Position) : Position :=
  { pos with portfolioHistory :=
      pos.portfolioHistory ++ [pos.cash + (pos.calls : ℚ) * marketPrice] }

/-- The startGame handler: on a not-yet-started room it marks the room
started, appends the initial valuation cash + calls * marketPrice to
every position history, and sets promptCount = 1 with prompt type
sell-call.  (The wall-clock startTime and the emits are not modelled.) -/
def startGame (data : RoomData) : RoomData :=
  if data.started then data
  else
    { data with
      started := true
      positions := data.positions.map fun e => (e.1, startValuation data.marketPrice e.2)
      promptCount := 1
      currentPromptType := .sellCall }

/-- The roundUpdate handler body for a known admin room: process the
prior round bids, then increment promptCount and set the prompt type by
its parity (even gives sell-call, odd gives buy-call).  Note the handler
has no started or gameOver guard. -/
def roundUpdate (data : RoomData) : RoomData :=
  let data2 := processRoundBids data
  { data2 with
    promptCount := data2.promptCount + 1
    currentPromptType := if (data2.promptCount + 1) % 2 = 0 then .sellCall else .buyCall }

/-- The submitBid handler body for a known player room: ignored unless
the room is started and not over; otherwise records (overwriting) the
bid for this player. -/
def submitBid (data : RoomData) (userID : String) (bidPrice : ℚ) : RoomData :=
  if !data.started || data.gameOver then data
  else { data with bids := setKey data.bids userID bidPrice }

/-- The per-position settlement of finalizeGame: the final cash
cash + calls * max(0, finalPx - 100) (strike hard-coded to 100) is
appended to the portfolio history. -/
def settlePos (finalPx : ℚ) (pos : Position) : Position :=
  { pos with portfolioHistory :=
      pos.portfolioHistory ++ [pos.cash + (pos.calls : ℚ) * max 0 (finalPx - 100)] }

/-- The state effect of the finalizeGame handler: gameOver is set and
every position history receives its settlement value. -/
def finalizeGameState (data : RoomData) (finalPx : ℚ) : RoomData :=
  { data with
    gameOver := true
    positions := data.positions.map fun e => (e.1, settlePos finalPx e.2) }

/-- One entry of the finalResults payload built by finalizeGame (the
username and echoed-back fields are omitted). -/
structure FinalResult where
  finalCash : ℚ
  sharpe : ℝ
  calls : ℤ
  callIntrinsicValue : ℚ

/-- The per-position entry of the finalResults payload: the intrinsic
value max(0, finalPx - 100), the final cash, and the Sharpe value of
the history with the final cash appended. -/
noncomputable def finalResultOf (finalPx : ℚ) (pos : Position) : FinalResult :=
  let callIntrinsicValue : ℚ := max 0 (finalPx - 100)
  let finalCash := pos.cash + (pos.calls : ℚ) * callIntrinsicValue
  { finalCash := finalCash
    sharpe := computeSharpe (pos.portfolioHistory ++ [finalCash])
    calls := pos.calls
    callIntrinsicValue := callIntrinsicValue }

/-- The finalResults payload of finalizeGame, one entry per position. -/
noncomputable def finalizeResults (data : RoomData) (finalPx : ℚ) :
    List (String × FinalResult) :=
  data.positions.map fun e => (e.1, finalResultOf finalPx e.2)

/-- The reply emitted by the join-room handler; noReply models the
silent return when roomsData has no entry for a registered room. -/
inductive JoinReply
  | noSuchRoom
  | gameAlreadyStarted
  | usernameTaken
  | joinApproved
  | noReply
deriving DecidableEq

/-- The slice of global server state the join-room handler touches: the
rooms set, the playerToRoom map and the per-room data. -/
structure ServerState where
  rooms : List String
  playerToRoom : List (String × String)
  roomsData : List (String × RoomData)
deriving DecidableEq

/-- The room mutation of a successful join: the roster entry is
registered and a { cash: 100, calls: 0, portfolioHistory: [] } position
is seeded only when none exists for the player. -/
def joinedRoomData (data : RoomData) (username userID : String) : RoomData :=
  { data with
    usernames := setKey data.usernames userID username
    positions :=
      if (lookupKey data.positions userID).isNone then
        setKey data.positions userID { cash := 100, calls := 0, portfolioHistory := [] }
      else data.positions }

/-- The join-room handler: noSuchRoom on a falsy username or an
unregistered room id; silent on a registered room with no data;
gameAlreadyStarted when the room is started and over; usernameTaken when
the username is already a roster value; otherwise registers the roster
entry, maps the player to the room, and seeds a 100-cash position only
when none exists. -/
def joinRoom (s : ServerState) (room username userID : String) : ServerState × JoinReply :=
  if username = "" ∨ room ∉ s.rooms then (s, .noSuchRoom)
  else
    match lookupKey s.roomsData room with
    | none => (s, .noReply)
    | some data =>
      if data.started && data.gameOver then (s, .gameAlreadyStarted)
      else if username ∈ data.usernames.map Prod.snd then (s, .usernameTaken)
      else
        ({ s with
            playerToRoom := setKey s.playerToRoom userID room
            roomsData := setKey s.roomsData room (joinedRoomData data username userID) },
         .joinApproved)

/-- A position as seeded at join and marked once at game start. -/
def examplePos100 : Position := { cash := 100, calls := 0, portfolioHistory := [100] }

/-- A lobby room with one seated player, used to exercise startGame. -/
def exampleLobby : RoomData :=
  { initRoomData "adminA" with
    usernames := [("p1", "alice")]
    positions := [("p1", { cash := 100, calls := 0, portfolioHistory := [] })] }

/-- An active sell-call round with the bid book of the worked example in
the specification: { a: 12, b: 10, c: 8 }. -/
def exampleRound : RoomData :=
  { initRoomData "adminA" with
    started := true
    promptCount := 1
    currentPromptType := .sellCall
    usernames := [("a", "alice"), ("b", "bob"), ("c", "carol")]
    positions := [("a", examplePos100), ("b", examplePos100), ("c", examplePos100)]
    bids := [("a", 12), ("b", 10), ("c", 8)] }

/-- The same active room with an empty bid book. -/
def exampleNoBids : RoomData := { exampleRound with bids := [] }

/-- The settlement example position of the specification: 2 calls and
50 cash. -/
def exampleSettlePos : Position := { cash := 50, calls := 2, portfolioHistory := [100] }

/-- An active room holding the settlement example position. -/
def exampleSettle : RoomData :=
  { initRoomData "adminA" with
    started := true
    usernames := [("p1", "alice")]
    positions := [("p1", exampleSettlePos)] }

/-- A server with two registered lobby rooms. -/
def exampleJoinState : ServerState :=
  { rooms := ["r1", "r2"]
    playerToRoom := []
    roomsData := [("r1", initRoomData "adminA"), ("r2", initRoomData "adminB")] }

/-- A room finalized without ever having been started: reachable by
room-start followed directly by finalizeGame. -/
def exampleOverRoom : RoomData := finalizeGameState (initRoomData "adminA") 120

/-- A server holding only the finalized-but-never-started room. -/
def exampleOverState : ServerState :=
  { rooms := ["r1"]
    playerToRoom := []
    roomsData := [("r1", exampleOverRoom)] }

/-! ### Association-list lemmas -/

theorem lookupKey_setKey_self {α : Type} (l : List (String × α)) (k : String) (v : α) :
    lookupKey (setKey l k v) k = some v := by
  induction l with
  | nil => simp [setKey, lookupKey]
  | cons e rest ih =>
    obtain ⟨k1, v1⟩ := e
    by_cases h : k1 = k
    · simp [setKey, lookupKey, h]
    · simp [setKey, lookupKey, h, ih]

theorem lookupKey_setKey_ne {α : Type} (l : List (String × α)) {k k2 : String} (v : α)
    (h : k ≠ k2) : lookupKey (setKey l k v) k2 = lookupKey l k2 := by
  induction l with
  | nil => simp [setKey, lookupKey, h]
  | cons e rest ih =>
    obtain ⟨k1, v1⟩ := e
    by_cases h1 : k1 = k
    · subst h1
      simp [setKey, lookupKey, h]
    · by_cases h2 : k1 = k2
      · subst h2
        simp [setKey, lookupKey, h1]
      · simp [setKey, lookupKey, h1, h2, ih]

theorem lookupKey_mapVals {α β : Type} (f : α → β) (l : List (String × α)) (k : String) :
    lookupKey (l.map fun e => (e.1, f e.2)) k = (lookupKey l k).map f := by
  induction l with
  | nil => rfl
  | cons e rest ih =>
    by_cases h : e.1 = k
    · simp [lookupKey, h]
    · simp [lookupKey, h, ih]

/-! ### Execution-loop lemmas -/

theorem applyTrade_portfolioHistory (t : PromptType) (b : ℚ) (pos : Position) :
    (applyTrade t b pos).portfolioHistory = pos.portfolioHistory := by
  cases t <;> rfl

theorem executeTrades_cons (t : PromptType) (c : ℚ) (b : String × ℚ)
    (rest : List (String × ℚ)) (ps : List (String × Position)) :
    executeTrades t c (b :: rest) ps = executeTrades t c rest (tradeOne t c ps b) := rfl

theorem lookupKey_tradeOne_ne (t : PromptType) (c : ℚ) (ps : List (String × Position))
    (bid : String × ℚ) (uid : String) (h : bid.1 ≠ uid) :
    lookupKey (tradeOne t c ps bid) uid = lookupKey ps uid := by
  unfold tradeOne
  split
  · exact lookupKey_setKey_ne _ _ h
  · rfl

theorem lookupKey_executeTrades_not_mem (t : PromptType) (c : ℚ)
    (sorted : List (String × ℚ)) (ps : List (String × Position)) (uid : String)
    (h : uid ∉ sorted.map Prod.fst) :
    lookupKey (executeTrades t c sorted ps) uid = lookupKey ps uid := by
  induction sorted generalizing ps with
  | nil => rfl
  | cons b rest ih =>
    simp only [List.map_cons, List.mem_cons, not_or] at h
    rw [executeTrades_cons, ih _ h.2, lookupKey_tradeOne_ne]
    exact fun e => h.1 e.symm

theorem lookupKey_executeTrades_mem (t : PromptType) (c : ℚ)
    (sorted : List (String × ℚ)) (ps : List (String × Position))
    (uid : String) (b : ℚ) (pos : Position)
    (hmem : (uid, b) ∈ sorted) (hnd : (sorted.map Prod.fst).Nodup)
    (hpos : lookupKey ps uid = some pos) :
    lookupKey (executeTrades t c sorted ps) uid =
      some (if bidExecutes t b c then applyTrade t b pos else pos) := by
  induction sorted generalizing ps with
  | nil => cases hmem
  | cons e rest ih =>
    rw [executeTrades_cons]
    simp only [List.map_cons, List.nodup_cons] at hnd
    rcases List.mem_cons.mp hmem with h | h
    · subst h
      rw [lookupKey_executeTrades_not_mem _ _ _ _ _ hnd.1]
      by_cases hex : bidExecutes t b c = true
      · simp only [tradeOne, hex, if_true]
        rw [lookupKey_setKey_self, hpos]
        simp [hex]
      · simp only [tradeOne, hex, if_false]
        simp [hpos, hex]
    · have huid : uid ∈ rest.map Prod.fst := List.mem_map_of_mem Prod.fst h
      have hne : e.1 ≠ uid := fun he => hnd.1 (he ▸ huid)
      exact ih _ h hnd.2 (by rw [lookupKey_tradeOne_ne _ _ _ _ _ hne]; exact hpos)

theorem lookupKey_tradeOne_history (t : PromptType) (c : ℚ) (ps : List (String × Position))
    (bid : String × ℚ) (uid : String) (pos : Position)
    (hpos : lookupKey ps uid = some pos) :
    ∃ pos2, lookupKey (tradeOne t c ps bid) uid = some pos2 ∧
      pos2.portfolioHistory = pos.portfolioHistory := by
  by_cases he : bid.1 = uid
  · subst he
    unfold tradeOne
    split
    · refine ⟨_, lookupKey_setKey_self _ _ _, ?_⟩
      rw [hpos, Option.getD_some, applyTrade_portfolioHistory]
    · exact ⟨pos, hpos, rfl⟩
  · rw [lookupKey_tradeOne_ne _ _ _ _ _ he]
    exact ⟨pos, hpos, rfl⟩

theorem lookupKey_executeTrades_history (t : PromptType) (c : ℚ)
    (sorted : List (String × ℚ)) (ps : List (String × Position)) (uid : String) (pos : Position)
    (hpos : lookupKey ps uid = some pos) :
    ∃ pos2, lookupKey (executeTrades t c sorted ps) uid = some pos2 ∧
      pos2.portfolioHistory = pos.portfolioHistory := by
  induction sorted generalizing ps pos with
  | nil => exact ⟨pos, hpos, rfl⟩
  | cons e rest ih =>
    obtain ⟨pos1, h1, h2⟩ := lookupKey_tradeOne_history t c ps e uid pos hpos
    obtain ⟨pos2, h3, h4⟩ := ih _ _ h1
    exact ⟨pos2, by rw [executeTrades_cons]; exact h3, by rw [h4, h2]⟩

/-! ### Round-state lemmas -/

theorem sortBids_perm (t : PromptType) (l : List (String × ℚ)) : (sortBids t l).Perm l := by
  cases t <;> exact List.perm_insertionSort _ _

theorem sortBids_length (t : PromptType) (l : List (String × ℚ)) :
    (sortBids t l).length = l.length :=
  (sortBids_perm t l).length_eq

theorem processRoundBids_promptCount (d : RoomData) :
    (processRoundBids d).promptCount = d.promptCount := by
  unfold processRoundBids broadcastPositionsAndSharpe applyRiskFreeAndRecord
  split <;> rfl

theorem processRoundBids_promptType (d : RoomData) :
    (processRoundBids d).currentPromptType = d.currentPromptType := by
  unfold processRoundBids broadcastPositionsAndSharpe applyRiskFreeAndRecord
  split <;> rfl

theorem processRoundBids_marketPrice_of_bids (d : RoomData) (h : d.bids ≠ []) :
    (processRoundBids d).marketPrice = clearingPrice d := by
  unfold processRoundBids broadcastPositionsAndSharpe applyRiskFreeAndRecord
  rw [if_neg h]

theorem processRoundBids_of_no_bids (d : RoomData) (h : d.bids = []) :
    processRoundBids d = applyRiskFreeAndRecord d := by
  unfold processRoundBids broadcastPositionsAndSharpe
  rw [if_pos h]

theorem processRoundBids_positions_of_bids (d : RoomData) (h : d.bids ≠ []) :
    (processRoundBids d).positions =
      (executeTrades d.currentPromptType (clearingPrice d)
          (sortBids d.currentPromptType d.bids) d.positions).map
        fun e => (e.1, valuationStep (clearingPrice d) e.2) := by
  unfold processRoundBids broadcastPositionsAndSharpe applyRiskFreeAndRecord
  rw [if_neg h]

theorem ceil_half_nat (n : ℕ) : ⌈(n : ℚ) / 2⌉ = (((n + 1) / 2 : ℕ) : ℤ) := by
  have h1 : 2 * ((n + 1) / 2) ≤ n + 1 := by omega
  have h2 : n ≤ 2 * ((n + 1) / 2) := by omega
  have hq1 : ((2 * ((n + 1) / 2) : ℕ) : ℚ) ≤ (n : ℚ) + 1 := by exact_mod_cast h1
  have hq2 : (n : ℚ) ≤ ((2 * ((n + 1) / 2) : ℕ) : ℚ) := by exact_mod_cast h2
  push_cast at hq1 hq2
  rw [Int.ceil_eq_iff]
  constructor
  · simp only [Int.cast_natCast]
    linarith
  · simp only [Int.cast_natCast]
    linarith

/-- Claim C5: the Sharpe computation is a pure function of the valuation
history that returns 0 on fewer than two points, uses variance divisor
max(count - 1, 1) over the step returns, returns 0 when the standard
deviation is below the fixed epsilon, and otherwise returns
(meanReturn - riskFreeStepRate) / stdev with the same per-round
risk-free fraction as the ledger compounding step. -/
theorem claim_c5_sharpe :
    (∀ history : List ℚ, computeSharpe history = sharpeSpecModel history)
    ∧ rfStepSharpe = rfStepLedger := by
  constructor
  · intro history
    by_cases h2 : history.length < 2
    · simp [computeSharpe, sharpeSpecModel, h2]
    · have hdiv : (if (stepReturns history).length - 1 = 0 then 1
          else (stepReturns history).length - 1) = max ((stepReturns history).length - 1) 1 := by
        rcases Nat.eq_zero_or_pos ((stepReturns history).length - 1) with h | h
        · simp [h]
        · rw [if_neg (Nat.pos_iff_ne_zero.mp h), max_eq_left h]
      have hpos : (0 : ℝ) < stdevThreshold := by
        unfold stdevThreshold
        norm_num
      simp only [computeSharpe, sharpeSpecModel, if_neg h2]
      rw [hdiv]
      split_ifs with hs hz
      · rfl
      · rw [hz] at hs
        exact absurd hpos (by simpa using hs)
      · rfl
  · rfl

/-- Claim C10: a join-room request with an empty (falsy) username is
answered noSuchRoom even when the room exists, with no state change. -/
theorem claim_c10_falsy_username (s : ServerState) (room userID : String) :
    joinRoom s room "" userID = (s, JoinReply.noSuchRoom) := by
  unfold joinRoom
  rw [if_pos (Or.inl rfl)]

/-- Claim C3 counterexample: starting a game and advancing once gives
round 1 and round 2 the same direction (both sell-call), so round
directions do not alternate starting from round 1. -/
theorem claim_c3_counterexample :
    (startGame exampleLobby).promptCount = 1
    ∧ (startGame exampleLobby).currentPromptType = PromptType.sellCall
    ∧ (roundUpdate (startGame exampleLobby)).promptCount = 2
    ∧ (roundUpdate (startGame exampleLobby)).currentPromptType = PromptType.sellCall :=
  ⟨rfl, rfl, rfl, rfl⟩

/-- Claim C3 (amended): the first round is sell-call with counter 1;
each round advance increments the counter and sets the direction to
sell-call on an even counter and buy-call on an odd one; hence
directions alternate from round 2 onward (rounds 1 and 2 are both
sell-call). -/
theorem claim_c3_amended :
    (∀ d : RoomData, d.started = false →
      (startGame d).promptCount = 1 ∧ (startGame d).currentPromptType = PromptType.sellCall)
    ∧ (∀ d : RoomData,
        (roundUpdate d).promptCount = d.promptCount + 1
        ∧ (roundUpdate d).currentPromptType =
            (if (d.promptCount + 1) % 2 = 0 then PromptType.sellCall else PromptType.buyCall))
    ∧ (∀ k : ℕ, 2 ≤ k →
        (if k % 2 = 0 then PromptType.sellCall else PromptType.buyCall) ≠
          (if (k + 1) % 2 = 0 then PromptType.sellCall else PromptType.buyCall)) := by
  refine ⟨fun d h => ?_, fun d => ⟨?_, ?_⟩, fun k _ => ?_⟩
  · constructor <;> simp [startGame, h]
  · show (processRoundBids d).promptCount + 1 = d.promptCount + 1
    rw [processRoundBids_promptCount]
  · show (if ((processRoundBids d).promptCount + 1) % 2 = 0
        then PromptType.sellCall else PromptType.buyCall) = _
    rw [processRoundBids_promptCount]
  · by_cases h : k % 2 = 0
    · have h2 : ¬(k + 1) % 2 = 0 := by omega
      simp [h, h2]
    · have h2 : (k + 1) % 2 = 0 := by omega
      simp [h, h2]

/-- Witness for the amended C3 at a concrete lobby room and at k = 2. -/
theorem claim_c3_witness :
    (exampleLobby.started = false
      ∧ ((startGame exampleLobby).promptCount = 1
        ∧ (startGame exampleLobby).currentPromptType = PromptType.sellCall))
    ∧ (2 ≤ 2
      ∧ (if 2 % 2 = 0 then PromptType.sellCall else PromptType.buyCall) ≠
          (if (2 + 1) % 2 = 0 then PromptType.sellCall else PromptType.buyCall)) :=
  ⟨⟨rfl, claim_c3_amended.1 exampleLobby rfl⟩,
   ⟨by decide, claim_c3_amended.2.2 2 (by decide)⟩⟩

unseal Rat.mul Rat.add Rat.sub Rat.inv in
/-- Claim C7 counterexample: after finalizeGame the room is in its
terminal state, yet a later roundUpdate still mutates a portfolio (the
cash of player a changes) and advances the round counter. -/
theorem claim_c7_counterexample :
    (finalizeGameState exampleNoBids 110).gameOver = true
    ∧ lookupKey (roundUpdate (finalizeGameState exampleNoBids 110)).positions "a"
        ≠ lookupKey (finalizeGameState exampleNoBids 110).positions "a"
    ∧ (roundUpdate (finalizeGameState exampleNoBids 110)).promptCount
        = (finalizeGameState exampleNoBids 110).promptCount + 1 := by
  refine ⟨rfl, ?_, rfl⟩
  decide

/-- Claim C7 (amended): finalizeGame puts the room in its terminal
state and a later submitBid is a no-op, but roundUpdate is not guarded
by the terminal state: it still runs the full matching and valuation
step on the positions and advances the round counter. -/
theorem claim_c7_amended :
    (∀ (d : RoomData) (finalPx : ℚ), (finalizeGameState d finalPx).gameOver = true)
    ∧ (∀ (d : RoomData) (finalPx : ℚ) (uid : String) (price : ℚ),
        submitBid (finalizeGameState d finalPx) uid price = finalizeGameState d finalPx)
    ∧ (∀ (d : RoomData) (finalPx : ℚ),
        (roundUpdate (finalizeGameState d finalPx)).promptCount
          = (finalizeGameState d finalPx).promptCount + 1
        ∧ (roundUpdate (finalizeGameState d finalPx)).positions
          = (processRoundBids (finalizeGameState d finalPx)).positions) := by
  refine ⟨fun d p => rfl, fun d p uid price => ?_, fun d p => ⟨?_, rfl⟩⟩
  · simp [submitBid, finalizeGameState]
  · show (processRoundBids _).promptCount + 1 = _
    rw [processRoundBids_promptCount]

/-- Claim C1: on a round advance with a non-empty bid book, the bids are
sorted descending by price on sell-call and ascending on buy-call, the
clearing price is the price at index ceil(n/2) - 1 of the sorted list,
and marketPrice is set to that clearing price unconditionally. -/
theorem claim_c1_clearing_price (d : RoomData) (h : d.bids ≠ []) :
    (sortBids d.currentPromptType d.bids).Perm d.bids
    ∧ (d.currentPromptType = PromptType.sellCall →
        List.Sorted bidDesc (sortBids d.currentPromptType d.bids))
    ∧ (d.currentPromptType = PromptType.buyCall →
        List.Sorted bidAsc (sortBids d.currentPromptType d.bids))
    ∧ (medianIndex d.bids.length : ℤ) = ⌈(d.bids.length : ℚ) / 2⌉ - 1
    ∧ medianIndex d.bids.length < d.bids.length
    ∧ clearingPrice d =
        ((sortBids d.currentPromptType d.bids).getD (medianIndex d.bids.length) ("", 0)).2
    ∧ (processRoundBids d).marketPrice = clearingPrice d := by
  have hn : 0 < d.bids.length := List.length_pos.mpr h
  refine ⟨sortBids_perm _ _, ?_, ?_, ?_, ?_, ?_, processRoundBids_marketPrice_of_bids d h⟩
  · intro ht
    rw [ht]
    exact List.sorted_insertionSort bidDesc d.bids
  · intro ht
    rw [ht]
    exact List.sorted_insertionSort bidAsc d.bids
  · rw [ceil_half_nat]
    unfold medianIndex
    omega
  · unfold medianIndex
    omega
  · simp only [clearingPrice]
    rw [sortBids_length]

unseal Rat.mul Rat.add Rat.sub Rat.inv in
/-- Witness for C1 on the worked sell-call book { a: 12, b: 10, c: 8 }:
the clearing price is 10 and becomes the market price. -/
theorem claim_c1_witness :
    exampleRound.bids ≠ []
    ∧ (processRoundBids exampleRound).marketPrice = clearingPrice exampleRound
    ∧ clearingPrice exampleRound = 10
    ∧ sortBids exampleRound.currentPromptType exampleRound.bids
        = [("a", 12), ("b", 10), ("c", 8)] :=
  ⟨by decide, (claim_c1_clearing_price exampleRound (by decide)).2.2.2.2.2.2,
   by decide, by decide⟩

/-- Claim C4: a round advance with zero bids leaves marketPrice
unchanged but still appends a valuation point with compounded cash to
every existing position. -/
theorem claim_c4_zero_bids (d : RoomData) (h : d.bids = []) :
    (processRoundBids d).marketPrice = d.marketPrice
    ∧ ∀ uid pos, lookupKey d.positions uid = some pos →
        lookupKey (processRoundBids d).positions uid =
          some { cash := pos.cash * (1 + rfStepLedger)
                 calls := pos.calls
                 portfolioHistory := pos.portfolioHistory ++
                   [pos.cash * (1 + rfStepLedger) + (pos.calls : ℚ) * d.marketPrice] } := by
  rw [processRoundBids_of_no_bids d h]
  constructor
  · rfl
  · intro uid pos hpos
    show lookupKey (d.positions.map fun e => (e.1, valuationStep d.marketPrice e.2)) uid = _
    rw [lookupKey_mapVals, hpos]
    rfl

unseal Rat.mul Rat.add Rat.sub Rat.inv in
/-- Witness for C4 on a concrete active room with an empty bid book. -/
theorem claim_c4_witness :
    exampleNoBids.bids = []
    ∧ (processRoundBids exampleNoBids).marketPrice = exampleNoBids.marketPrice
    ∧ lookupKey (processRoundBids exampleNoBids).positions "a" =
        some { cash := examplePos100.cash * (1 + rfStepLedger)
               calls := examplePos100.calls
               portfolioHistory := examplePos100.portfolioHistory ++
                 [examplePos100.cash * (1 + rfStepLedger) +
                   (examplePos100.calls : ℚ) * exampleNoBids.marketPrice] } :=
  ⟨rfl, (claim_c4_zero_bids exampleNoBids rfl).1,
   (claim_c4_zero_bids exampleNoBids rfl).2 "a" examplePos100 (by decide)⟩

/-- Claim C2: in a matched round a bid executes iff it is at or above
the clearing price on sell-call (at or below on buy-call); an executing
bid settles at the bidder own price, moving cash by that bid and the
option count by one; a non-executing bid leaves the position unchanged
at the matching step. -/
theorem claim_c2_execution (d : RoomData) (uid : String) (b : ℚ) (pos : Position)
    (hnd : (d.bids.map Prod.fst).Nodup)
    (hbid : (uid, b) ∈ d.bids)
    (hpos : lookupKey d.positions uid = some pos) :
    lookupKey (executeTrades d.currentPromptType (clearingPrice d)
        (sortBids d.currentPromptType d.bids) d.positions) uid =
      some (if bidExecutes d.currentPromptType b (clearingPrice d)
            then applyTrade d.currentPromptType b pos else pos)
    ∧ (∀ c : ℚ, bidExecutes PromptType.sellCall b c = true ↔ c ≤ b)
    ∧ (∀ c : ℚ, bidExecutes PromptType.buyCall b c = true ↔ b ≤ c)
    ∧ applyTrade PromptType.sellCall b pos
        = { pos with cash := pos.cash - b, calls := pos.calls + 1 }
    ∧ applyTrade PromptType.buyCall b pos
        = { pos with cash := pos.cash + b, calls := pos.calls - 1 }
    ∧ (d.bids ≠ [] → (processRoundBids d).positions =
        (executeTrades d.currentPromptType (clearingPrice d)
            (sortBids d.currentPromptType d.bids) d.positions).map
          fun e => (e.1, valuationStep (clearingPrice d) e.2)) := by
  refine ⟨?_, ?_, ?_, rfl, rfl, processRoundBids_positions_of_bids d⟩
  · exact lookupKey_executeTrades_mem _ _ _ _ _ _ _
      ((sortBids_perm _ _).mem_iff.mpr hbid)
      (((sortBids_perm _ _).map Prod.fst).nodup_iff.mpr hnd)
      hpos
  · intro c
    simp [bidExecutes]
  · intro c
    simp [bidExecutes]

unseal Rat.mul Rat.add Rat.sub Rat.inv in
/-- Witness for C2: in the sell-call book { a: 12, b: 10, c: 8 } the bid
of player a (12, at or above the clearing price 10) executes at 12, so
their cash moves from 100 to 88 and their option count to 1. -/
theorem claim_c2_witness :
    (exampleRound.bids.map Prod.fst).Nodup
    ∧ ("a", (12 : ℚ)) ∈ exampleRound.bids
    ∧ lookupKey exampleRound.positions "a" = some examplePos100
    ∧ lookupKey (executeTrades exampleRound.currentPromptType (clearingPrice exampleRound)
        (sortBids exampleRound.currentPromptType exampleRound.bids) exampleRound.positions) "a" =
      some (if bidExecutes exampleRound.currentPromptType 12 (clearingPrice exampleRound)
            then applyTrade exampleRound.currentPromptType 12 examplePos100 else examplePos100)
    ∧ lookupKey (executeTrades exampleRound.currentPromptType (clearingPrice exampleRound)
        (sortBids exampleRound.currentPromptType exampleRound.bids) exampleRound.positions) "a" =
      some { cash := 88, calls := 1, portfolioHistory := [100] } :=
  ⟨by decide, by decide, by decide,
   (claim_c2_execution exampleRound "a" 12 examplePos100 (by decide) (by decide) (by decide)).1,
   by decide⟩

/-- Claim C6: finalizing with final price P settles every position at
intrinsic value max(0, P - 100) with the strike fixed at 100; the final
cash cash + calls * intrinsic is appended to the valuation history, and
the terminal Sharpe value is computed from the appended history. -/
theorem claim_c6_finalize (d : RoomData) (finalPx : ℚ) (uid : String) (pos : Position)
    (hpos : lookupKey d.positions uid = some pos) :
    (finalizeGameState d finalPx).gameOver = true
    ∧ lookupKey (finalizeGameState d finalPx).positions uid =
        some { pos with portfolioHistory :=
          pos.portfolioHistory ++ [pos.cash + (pos.calls : ℚ) * max 0 (finalPx - 100)] }
    ∧ lookupKey (finalizeResults d finalPx) uid =
        some { finalCash := pos.cash + (pos.calls : ℚ) * max 0 (finalPx - 100)
               sharpe := computeSharpe (pos.portfolioHistory ++
                 [pos.cash + (pos.calls : ℚ) * max 0 (finalPx - 100)])
               calls := pos.calls
               callIntrinsicValue := max 0 (finalPx - 100) } := by
  refine ⟨rfl, ?_, ?_⟩
  · show lookupKey (d.positions.map fun e => (e.1, settlePos finalPx e.2)) uid = _
    rw [lookupKey_mapVals, hpos]
    rfl
  · show lookupKey (d.positions.map fun e => (e.1, finalResultOf finalPx e.2)) uid = _
    rw [lookupKey_mapVals, hpos]
    rfl

unseal Rat.mul Rat.add Rat.sub Rat.inv in
/-- Witness for C6 on the worked example: final price 120, 2 calls and
50 cash settle to a final cash of 90 appended to the history. -/
theorem claim_c6_witness :
    lookupKey exampleSettle.positions "p1" = some exampleSettlePos
    ∧ lookupKey (finalizeGameState exampleSettle 120).positions "p1" =
        some { exampleSettlePos with portfolioHistory :=
          exampleSettlePos.portfolioHistory ++
            [exampleSettlePos.cash + (exampleSettlePos.calls : ℚ) * max 0 (120 - 100)] }
    ∧ lookupKey (finalizeGameState exampleSettle 120).positions "p1" =
        some { cash := 50, calls := 2, portfolioHistory := [100, 90] } :=
  ⟨by decide,
   (claim_c6_finalize exampleSettle 120 "p1" exampleSettlePos (by decide)).2.1,
   by decide⟩

theorem joinRoom_approved_eq (sv : ServerState) (room username userID : String) (d : RoomData)
    (hu : username ≠ "") (hr : room ∈ sv.rooms)
    (hd : lookupKey sv.roomsData room = some d)
    (hg : (d.started && d.gameOver) = false)
    (hn : username ∉ d.usernames.map Prod.snd) :
    joinRoom sv room username userID =
      ({ sv with
          playerToRoom := setKey sv.playerToRoom userID room
          roomsData := setKey sv.roomsData room (joinedRoomData d username userID) },
       JoinReply.joinApproved) := by
  unfold joinRoom
  rw [if_neg (by simp [hu, hr]), hd]
  simp [hg, hn]

/-- Claim C8 counterexample: a room that was finalized without ever
being started is in its terminal state (gameOver), yet a join with a
fresh username is approved instead of rejected with gameAlreadyStarted,
because the handler tests started AND gameOver. -/
theorem claim_c8_counterexample :
    exampleOverRoom.gameOver = true
    ∧ (joinRoom exampleOverState "r1" "alice" "p9").2 = JoinReply.joinApproved
    ∧ (joinRoom exampleOverState "r1" "alice" "p9").2 ≠ JoinReply.gameAlreadyStarted :=
  ⟨rfl, by decide, by decide⟩

/-- Claim C8 (amended): joinRoom replies noSuchRoom for an unregistered
room, gameAlreadyStarted when the room has been started and is in its
terminal state (both flags), usernameTaken when the username is already
in that room roster; on success it registers the roster entry, maps the
player to the room, seeds a 100-cash position only when none exists,
and leaves every other room untouched, so the same username succeeds in
two different rooms. -/
theorem claim_c8_amended (sv : ServerState) (room username userID : String) (d : RoomData)
    (hu : username ≠ "") :
    (room ∉ sv.rooms → joinRoom sv room username userID = (sv, JoinReply.noSuchRoom))
    ∧ (room ∈ sv.rooms → lookupKey sv.roomsData room = some d →
        ((d.started && d.gameOver) = true →
          joinRoom sv room username userID = (sv, JoinReply.gameAlreadyStarted))
        ∧ ((d.started && d.gameOver) = false →
            username ∈ d.usernames.map Prod.snd →
              joinRoom sv room username userID = (sv, JoinReply.usernameTaken))
        ∧ ((d.started && d.gameOver) = false →
            username ∉ d.usernames.map Prod.snd →
              (joinRoom sv room username userID).2 = JoinReply.joinApproved
              ∧ lookupKey (joinRoom sv room username userID).1.roomsData room =
                  some (joinedRoomData d username userID)
              ∧ lookupKey (joinedRoomData d username userID).usernames userID = some username
              ∧ lookupKey (joinRoom sv room username userID).1.playerToRoom userID = some room
              ∧ (joinedRoomData d username userID).positions =
                  (if (lookupKey d.positions userID).isNone then
                    setKey d.positions userID { cash := 100, calls := 0, portfolioHistory := [] }
                  else d.positions)
              ∧ (joinRoom sv room username userID).1.rooms = sv.rooms
              ∧ ∀ room2, room2 ≠ room →
                  lookupKey (joinRoom sv room username userID).1.roomsData room2 =
                    lookupKey sv.roomsData room2))
    ∧ (∀ room2 userID2 d2, room ∈ sv.rooms → lookupKey sv.roomsData room = some d →
        (d.started && d.gameOver) = false → username ∉ d.usernames.map Prod.snd →
        room2 ≠ room → room2 ∈ sv.rooms → lookupKey sv.roomsData room2 = some d2 →
        (d2.started && d2.gameOver) = false → username ∉ d2.usernames.map Prod.snd →
        (joinRoom sv room username userID).2 = JoinReply.joinApproved
        ∧ (joinRoom (joinRoom sv room username userID).1 room2 username userID2).2 =
            JoinReply.joinApproved) := by
  refine ⟨?_, fun hr hd => ⟨?_, ?_, ?_⟩, ?_⟩
  · intro hnr
    unfold joinRoom
    rw [if_pos (Or.inr hnr)]
  · intro hg
    unfold joinRoom
    rw [if_neg (by simp [hu, hr]), hd]
    simp [hg]
  · intro hg hn2
    unfold joinRoom
    rw [if_neg (by simp [hu, hr]), hd]
    simp [hg, hn2]
  · intro hg hn2
    rw [joinRoom_approved_eq sv room username userID d hu hr hd hg hn2]
    refine ⟨rfl, lookupKey_setKey_self _ _ _, lookupKey_setKey_self _ _ _,
      lookupKey_setKey_self _ _ _, rfl, rfl, ?_⟩
    intro room2 hne
    exact lookupKey_setKey_ne _ _ (Ne.symm hne)
  · intro room2 userID2 d2 hr hd hg hn2 hne hr2 hd2 hg2 hn22
    have h1 := joinRoom_approved_eq sv room username userID d hu hr hd hg hn2
    refine ⟨by rw [h1], ?_⟩
    rw [h1]
    have hd2b : lookupKey
        (setKey sv.roomsData room (joinedRoomData d username userID)) room2 = some d2 := by
      rw [lookupKey_setKey_ne _ _ (Ne.symm hne)]
      exact hd2
    show (joinRoom
        { rooms := sv.rooms
          playerToRoom := setKey sv.playerToRoom userID room
          roomsData := setKey sv.roomsData room (joinedRoomData d username userID) }
        room2 username userID2).2 = JoinReply.joinApproved
    rw [joinRoom_approved_eq
      { rooms := sv.rooms
        playerToRoom := setKey sv.playerToRoom userID room
        roomsData := setKey sv.roomsData room (joinedRoomData d username userID) }
      room2 username userID2 d2 hu hr2 hd2b hg2 hn22]

/-- Witness for the amended C8: the same username joins two different
lobby rooms, approved in both. -/
theorem claim_c8_witness :
    ("alice" : String) ≠ ""
    ∧ (joinRoom exampleJoinState "r1" "alice" "p1").2 = JoinReply.joinApproved
    ∧ (joinRoom (joinRoom exampleJoinState "r1" "alice" "p1").1 "r2" "alice" "p2").2 =
        JoinReply.joinApproved := by
  have h := (claim_c8_amended exampleJoinState "r1" "alice" "p1" (initRoomData "adminA")
      (by decide)).2.2 "r2" "p2" (initRoomData "adminB") (by decide) (by decide) (by decide)
      (by decide) (by decide) (by decide) (by decide) (by decide) (by decide)
  exact ⟨by decide, h.1, h.2⟩

theorem lookupKey_joinedRoomData (data : RoomData) (username userID uid : String)
    (pos : Position) (hpos : lookupKey data.positions uid = some pos) :
    lookupKey (joinedRoomData data username userID).positions uid = some pos := by
  show lookupKey (if (lookupKey data.positions userID).isNone then
      setKey data.positions userID { cash := 100, calls := 0, portfolioHistory := [] }
    else data.positions) uid = some pos
  by_cases hn : (lookupKey data.positions userID).isNone = true
  · rw [if_pos hn]
    by_cases he : userID = uid
    · subst he
      rw [hpos] at hn
      simp at hn
    · rw [lookupKey_setKey_ne _ _ he]
      exact hpos
  · rw [if_neg hn]
    exact hpos

theorem joinRoom_roomsData_cases (sv : ServerState) (room username userID : String) :
    (joinRoom sv room username userID).1 = sv
    ∨ ∃ data, lookupKey sv.roomsData room = some data
        ∧ (joinRoom sv room username userID).1.roomsData =
            setKey sv.roomsData room (joinedRoomData data username userID) := by
  unfold joinRoom
  split
  · left
    rfl
  · split
    · left
      rfl
    · rename_i data heq
      split
      · left
        rfl
      · split
        · left
          rfl
        · right
          exact ⟨data, heq, rfl⟩

theorem history_processRoundBids (d : RoomData) (uid : String) (pos : Position)
    (hpos : lookupKey d.positions uid = some pos) :
    ∃ pos2 t, lookupKey (processRoundBids d).positions uid = some pos2
      ∧ pos2.portfolioHistory = pos.portfolioHistory ++ t := by
  by_cases hb : d.bids = []
  · rw [processRoundBids_of_no_bids d hb]
    refine ⟨valuationStep d.marketPrice pos,
      [pos.cash * (1 + rfStepLedger) + (pos.calls : ℚ) * d.marketPrice], ?_, rfl⟩
    show lookupKey (d.positions.map fun e => (e.1, valuationStep d.marketPrice e.2)) uid = _
    rw [lookupKey_mapVals, hpos]
    rfl
  · rw [processRoundBids_positions_of_bids d hb]
    obtain ⟨pos1, h1, h2⟩ := lookupKey_executeTrades_history d.currentPromptType
      (clearingPrice d) (sortBids d.currentPromptType d.bids) d.positions uid pos hpos
    refine ⟨valuationStep (clearingPrice d) pos1,
      [pos1.cash * (1 + rfStepLedger) + (pos1.calls : ℚ) * clearingPrice d], ?_, ?_⟩
    · rw [lookupKey_mapVals, h1]
      rfl
    · show pos1.portfolioHistory ++ _ = pos.portfolioHistory ++ _
      rw [h2]

/-- Claim C9: the per-round valuation compounds cash by (1 + rfStep)
and then appends cash + calls * marketPrice; it runs for every
registered position on every round advance, including players who
submitted no bid; and across every modelled operation the valuation
history is only ever extended, never truncated or rewritten. -/
theorem claim_c9_valuation :
    (∀ mp pos, valuationStep mp pos =
      { cash := pos.cash * (1 + rfStepLedger)
        calls := pos.calls
        portfolioHistory := pos.portfolioHistory ++
          [pos.cash * (1 + rfStepLedger) + (pos.calls : ℚ) * mp] })
    ∧ (∀ d uid pos, lookupKey d.positions uid = some pos → uid ∉ d.bids.map Prod.fst →
        lookupKey (processRoundBids d).positions uid =
          some (valuationStep (processRoundBids d).marketPrice pos))
    ∧ (∀ d uid pos, lookupKey d.positions uid = some pos →
        ∃ pos2 t, lookupKey (processRoundBids d).positions uid = some pos2
          ∧ pos2.portfolioHistory = pos.portfolioHistory ++ t)
    ∧ (∀ d uid pos, lookupKey d.positions uid = some pos →
        ∃ pos2 t, lookupKey (startGame d).positions uid = some pos2
          ∧ pos2.portfolioHistory = pos.portfolioHistory ++ t)
    ∧ (∀ d finalPx uid pos, lookupKey d.positions uid = some pos →
        ∃ pos2 t, lookupKey (finalizeGameState d finalPx).positions uid = some pos2
          ∧ pos2.portfolioHistory = pos.portfolioHistory ++ t)
    ∧ (∀ d uid2 price uid pos, lookupKey d.positions uid = some pos →
        lookupKey (submitBid d uid2 price).positions uid = some pos)
    ∧ (∀ d uid pos, lookupKey d.positions uid = some pos →
        ∃ pos2 t, lookupKey (roundUpdate d).positions uid = some pos2
          ∧ pos2.portfolioHistory = pos.portfolioHistory ++ t)
    ∧ (∀ sv room username userID rid d uid pos,
        lookupKey sv.roomsData rid = some d → lookupKey d.positions uid = some pos →
        ∃ d2 pos2 t, lookupKey (joinRoom sv room username userID).1.roomsData rid = some d2
          ∧ lookupKey d2.positions uid = some pos2
          ∧ pos2.portfolioHistory = pos.portfolioHistory ++ t) := by
  refine ⟨fun mp pos => rfl, ?_, history_processRoundBids, ?_, ?_, ?_, ?_, ?_⟩
  · intro d uid pos hpos hnb
    by_cases hb : d.bids = []
    · rw [processRoundBids_of_no_bids d hb]
      show lookupKey (d.positions.map fun e => (e.1, valuationStep d.marketPrice e.2)) uid = _
      rw [lookupKey_mapVals, hpos]
      rfl
    · have hnotin : uid ∉ (sortBids d.currentPromptType d.bids).map Prod.fst := fun hmem =>
        hnb (((sortBids_perm d.currentPromptType d.bids).map Prod.fst).mem_iff.mp hmem)
      rw [processRoundBids_positions_of_bids d hb, processRoundBids_marketPrice_of_bids d hb,
        lookupKey_mapVals, lookupKey_executeTrades_not_mem _ _ _ _ _ hnotin, hpos]
      rfl
  · intro d uid pos hpos
    by_cases hs : d.started = true
    · rw [startGame, if_pos hs]
      exact ⟨pos, [], hpos, by simp⟩
    · rw [startGame, if_neg hs]
      refine ⟨startValuation d.marketPrice pos,
        [pos.cash + (pos.calls : ℚ) * d.marketPrice], ?_, rfl⟩
      show lookupKey
        (d.positions.map fun e => (e.1, startValuation d.marketPrice e.2)) uid = _
      rw [lookupKey_mapVals, hpos]
      rfl
  · intro d finalPx uid pos hpos
    refine ⟨settlePos finalPx pos,
      [pos.cash + (pos.calls : ℚ) * max 0 (finalPx - 100)], ?_, rfl⟩
    show lookupKey (d.positions.map fun e => (e.1, settlePos finalPx e.2)) uid = _
    rw [lookupKey_mapVals, hpos]
    rfl
  · intro d uid2 price uid pos hpos
    unfold submitBid
    split
    · exact hpos
    · exact hpos
  · intro d uid pos hpos
    exact history_processRoundBids d uid pos hpos
  · intro sv room username userID rid d uid pos hd hpos
    rcases joinRoom_roomsData_cases sv room username userID with h | ⟨data, hdata, hset⟩
    · exact ⟨d, pos, [], by rw [h]; exact hd, hpos, by simp⟩
    · by_cases hrid : room = rid
      · subst hrid
        have hdd : data = d := by
          rw [hdata] at hd
          exact Option.some.inj hd
        subst hdd
        exact ⟨joinedRoomData data username userID, pos, [],
          by rw [hset, lookupKey_setKey_self],
          lookupKey_joinedRoomData data username userID uid pos hpos, by simp⟩
      · refine ⟨d, pos, [], ?_, hpos, by simp⟩
        rw [hset, lookupKey_setKey_ne _ _ hrid]
        exact hd

/-- Witness for C9: in the active room with an empty bid book, the
non-bidding player a still receives the valuation step. -/
theorem claim_c9_witness :
    lookupKey exampleNoBids.positions "a" = some examplePos100
    ∧ "a" ∉ exampleNoBids.bids.map Prod.fst
    ∧ lookupKey (processRoundBids exampleNoBids).positions "a" =
        some (valuationStep (processRoundBids exampleNoBids).marketPrice examplePos100) :=
  ⟨by decide, by decide,
   claim_c9_valuation.2.1 exampleNoBids "a" examplePos100 (by decide) (by decide)⟩
